import Mathlib

/-!
Verification of the UI hierarchy query engine of an ADB automation server.

The source operates on raw dump strings with regular-expression scanning:
node tokens are the leftmost non-overlapping matches of a node pattern,
attribute values are extracted by locating `key="` and capturing up to the
next quote, and bounds are recognized by the pattern
`bounds="[d+,d+][d+,d+]"`.  The embedding below models strings as
`List Char` and implements those scanning semantics directly.
-/

/-- Substring test, Python's `needle in hay`. -/
def containsSub (nd : List Char) : List Char → Bool
  | [] => nd.isEmpty
  | c :: cs => nd.isPrefixOf (c :: cs) || containsSub nd cs

/-- Split a string at the first occurrence of `ch`: returns the part before
and the part after, or `none` when `ch` does not occur. -/
def takeUpTo (ch : Char) : List Char → Option (List Char × List Char)
  | [] => none
  | c :: cs =>
    if c = ch then some ([], cs)
    else (takeUpTo ch cs).map fun p => (c :: p.1, p.2)

/-- The literal `<node` opening every node token. -/
def nodeLit : List Char := ['<', 'n', 'o', 'd', 'e']

/-- The literal `clickable="true"` that the clickable-node pattern requires
somewhere inside the node token. -/
def clickLit : List Char :=
  ['c', 'l', 'i', 'c', 'k', 'a', 'b', 'l', 'e', '=', '"', 't', 'r', 'u', 'e', '"']

/-- Fuel-indexed scanner for the leftmost non-overlapping matches of
`<node[^>]*>`: at each position, if the literal `<node` matches and a `>`
follows, the match extends to the first such `>` and scanning resumes after
it; otherwise scanning advances one character. -/
def findNodesA : Nat → List Char → List (List Char)
  | 0, _ => []
  | _, [] => []
  | fuel + 1, c :: cs =>
    if nodeLit.isPrefixOf (c :: cs) then
      match takeUpTo '>' (cs.drop 4) with
      | some (body, rest) => (nodeLit ++ body ++ ['>']) :: findNodesA fuel rest
      | none => findNodesA fuel cs
    else findNodesA fuel cs

/-- All matches of `<node[^>]*>` in document order. -/
def findNodes (s : List Char) : List (List Char) := findNodesA s.length s

/-- Fuel-indexed scanner for the leftmost non-overlapping matches of
`<node[^>]*clickable="true"[^>]*>`: a position matches when `<node` is
followed, before the first `>`, by the literal `clickable="true"`; on a
match scanning resumes after that `>`, on a failed literal it advances one
character. -/
def findClickableNodesA : Nat → List Char → List (List Char)
  | 0, _ => []
  | _, [] => []
  | fuel + 1, c :: cs =>
    if nodeLit.isPrefixOf (c :: cs) then
      match takeUpTo '>' (cs.drop 4) with
      | some (body, rest) =>
        if containsSub clickLit body then
          (nodeLit ++ body ++ ['>']) :: findClickableNodesA fuel rest
        else findClickableNodesA fuel cs
      | none => findClickableNodesA fuel cs
    else findClickableNodesA fuel cs

/-- All matches of the clickable-node pattern in document order. -/
def findClickableNodes (s : List Char) : List (List Char) :=
  findClickableNodesA s.length s

/-- Search for the leftmost occurrence of `key="` and capture the value up
to the following quote — the semantics of the source's attribute search
`re.search(key + quoted-capture, node)`. -/
def extractAttr (key : List Char) : List Char → Option (List Char)
  | [] => none
  | c :: cs =>
    if (key ++ ['=', '"']).isPrefixOf (c :: cs) then
      match takeUpTo '"' ((c :: cs).drop (key.length + 2)) with
      | some (v, _) => some v
      | none => extractAttr key cs
    else extractAttr key cs

def textKey : List Char := ['t', 'e', 'x', 't']
def descKey : List Char := ['c', 'o', 'n', 't', 'e', 'n', 't', '-', 'd', 'e', 's', 'c']
def ridKey : List Char := ['r', 'e', 's', 'o', 'u', 'r', 'c', 'e', '-', 'i', 'd']
def clsKey : List Char := ['c', 'l', 'a', 's', 's']
def clickableKey : List Char := ['c', 'l', 'i', 'c', 'k', 'a', 'b', 'l', 'e']

/-- Numeric value of a digit run, as Python's `int` on the captured group. -/
def natOfDigits (ds : List Char) : Nat :=
  ds.foldl (fun a c => a * 10 + (c.toNat - 48)) 0

/-- A parsed bounds rectangle `[x1,y1][x2,y2]`. -/
structure BoundsRec where
  x1 : Nat
  y1 : Nat
  x2 : Nat
  y2 : Nat
deriving DecidableEq

structure Point where
  x : Nat
  y : Nat
deriving DecidableEq

structure SizeRec where
  width : Int
  height : Int
deriving DecidableEq

/-- Center of a rectangle, floor-dividing the sum of each axis by two. -/
def centerOf (b : BoundsRec) : Point :=
  ⟨(b.x1 + b.x2) / 2, (b.y1 + b.y2) / 2⟩

/-- Size of a rectangle by simple subtraction. -/
def sizeOf2 (b : BoundsRec) : SizeRec :=
  ⟨(b.x2 : Int) - (b.x1 : Int), (b.y2 : Int) - (b.y1 : Int)⟩

/-- Greedy parse of a nonempty digit run, returning its value and the rest. -/
def readNat (s : List Char) : Option (Nat × List Char) :=
  if (s.takeWhile Char.isDigit).isEmpty then none
  else some (natOfDigits (s.takeWhile Char.isDigit), s.dropWhile Char.isDigit)

/-- Consume one expected character. -/
def expectCh (c : Char) : List Char → Option (List Char)
  | [] => none
  | x :: xs => if x = c then some xs else none

/-- Parse `d+ , d+ ]` — one coordinate pair of the bounds pattern,
returning the two values and the leftover input. -/
def numPair (s : List Char) : Option ((Nat × Nat) × List Char) :=
  (readNat s).bind fun p1 =>
  (expectCh ',' p1.2).bind fun s1 =>
  (readNat s1).bind fun p2 =>
  (expectCh ']' p2.2).map fun s2 => ((p1.1, p2.1), s2)

/-- Body of the bounds pattern after its opening `[`:
`d+ , d+ ] [ d+ , d+ ]`, returning the rectangle and the leftover input. -/
def boundsBody (s : List Char) : Option (BoundsRec × List Char) :=
  (numPair s).bind fun q1 =>
  (expectCh '[' q1.2).bind fun s3 =>
  (numPair s3).map fun q2 => (⟨q1.1.1, q1.1.2, q2.1.1, q2.1.2⟩, q2.2)

/-- Attempt the bounds pattern at one position, given the input just after
the literal `bounds="[`: the body must be followed by a closing quote. -/
def tryBounds (s : List Char) : Option BoundsRec :=
  (boundsBody s).bind fun p =>
    (expectCh '"' p.2).map fun _ => p.1

/-- The literal `bounds="[` opening the bounds pattern. -/
def boundsLit : List Char := ['b', 'o', 'u', 'n', 'd', 's', '=', '"', '[']

/-- Leftmost match of `bounds="[d+,d+][d+,d+]"` in a node token — the
source's bounds search; positions where the literal matches but the body
fails are skipped, as the regex engine does. -/
def boundsSearch : List Char → Option BoundsRec
  | [] => none
  | c :: cs =>
    if boundsLit.isPrefixOf (c :: cs) then
      match tryBounds (cs.drop 8) with
      | some b => some b
      | none => boundsSearch cs
    else boundsSearch cs

/-- An element record built by `get_clickable_elements`: every field is
populated only when its attribute pattern matched inside the node token. -/
structure CElem where
  text : Option (List Char)
  content_desc : Option (List Char)
  resource_id : Option (List Char)
  bounds : Option BoundsRec
  center : Option Point
  size : Option SizeRec
  cls : Option (List Char)
deriving DecidableEq

/-- Per-node extraction of `get_clickable_elements`. -/
def mkCElem (node : List Char) : CElem :=
  { text := extractAttr textKey node
    content_desc := extractAttr descKey node
    resource_id := extractAttr ridKey node
    bounds := boundsSearch node
    center := (boundsSearch node).map centerOf
    size := (boundsSearch node).map sizeOf2
    cls := extractAttr clsKey node }

/-- Truthiness of the built record, Python's `if element:` on the dict. -/
def elemNonempty (e : CElem) : Bool :=
  e.text.isSome || e.content_desc.isSome || e.resource_id.isSome ||
    e.bounds.isSome || e.cls.isSome

/-- `get_clickable_elements`: scan the dump for clickable-node matches,
extract each record, and keep only non-empty records, in document order. -/
def get_clickable_elements (xml : List Char) : List CElem :=
  (findClickableNodes xml).filterMap fun n =>
    let e := mkCElem n
    if elemNonempty e then some e else none

/-- An element record built by `find_element_by_text`: text and
content-desc always present (empty when the attribute is absent). -/
structure TElem where
  text : List Char
  content_desc : List Char
  center : Option Point
  bounds : Option BoundsRec
deriving DecidableEq

def lowerL (s : List Char) : List Char := s.map Char.toLower

/-- `find_element_by_text`: scan all node tokens; keep those whose text or
content-desc matches the query — case-insensitive containment when
`partial_match`, exact equality otherwise. -/
def find_element_by_text (xml query : List Char) (pm : Bool) : List TElem :=
  (findNodes xml).filterMap fun node =>
    let ft := (extractAttr textKey node).getD []
    let fd := (extractAttr descKey node).getD []
    let m : Bool :=
      if pm then
        containsSub (lowerL query) (lowerL ft) || containsSub (lowerL query) (lowerL fd)
      else (query == ft) || (query == fd)
    if m then
      some { text := ft, content_desc := fd,
             center := (boundsSearch node).map centerOf,
             bounds := boundsSearch node }
    else none

/-- An element record built by `find_element_by_id`. -/
structure IdElem where
  resource_id : List Char
  text : Option (List Char)
  center : Option Point
  bounds : Option BoundsRec
deriving DecidableEq

/-- The record `find_element_by_id` builds for a matching node. -/
def mkIdElemOf (node : List Char) : IdElem :=
  { resource_id := (extractAttr ridKey node).getD []
    text := extractAttr textKey node
    center := (boundsSearch node).map centerOf
    bounds := boundsSearch node }

/-- The loop of `find_element_by_id`: return on the first node whose
resource-id attribute is present and contains the query. -/
def findIdInNodes (rid : List Char) : List (List Char) → Option IdElem
  | [] => none
  | n :: ns =>
    match extractAttr ridKey n with
    | some v => if containsSub rid v then some (mkIdElemOf n) else findIdInNodes rid ns
    | none => findIdInNodes rid ns

/-- `find_element_by_id`. -/
def find_element_by_id (xml rid : List Char) : Option IdElem :=
  findIdInNodes rid (findNodes xml)

/-- Result of `tap_element`: either the not-found report or a tap issued at
a concrete point. -/
inductive TapResult where
  | notFound : TapResult
  | tapped (x y : Nat) : TapResult
deriving DecidableEq

/-- The candidate element `tap_element` selects before checking geometry. -/
inductive Candidate where
  | fromText (e : TElem) : Candidate
  | fromId (e : IdElem) : Candidate
deriving DecidableEq

def candCenter : Candidate → Option Point
  | .fromText e => e.center
  | .fromId e => e.center

/-- Python truthiness of an optional string argument. -/
def truthyStr : Option (List Char) → Bool
  | none => false
  | some s => !s.isEmpty

/-- `tap_element`: select a candidate by text (first partial match) or by
resource id, fail when there is no candidate or it has no center, else tap
at the candidate's center. -/
def tap_element (xml : List Char) (t rid : Option (List Char)) : TapResult :=
  let element : Option Candidate :=
    if truthyStr t then
      match find_element_by_text xml (t.getD []) true with
      | [] => none
      | e :: _ => some (.fromText e)
    else if truthyStr rid then
      (find_element_by_id xml (rid.getD [])).map .fromId
    else none
  match element with
  | none => .notFound
  | some c =>
    match candCenter c with
    | none => .notFound
    | some p => .tapped p.x p.y

/-- Outcome of `scroll_to_text`: found after `scrolls` scrolls at an
optional center, or the not-found report quoting `max_scrolls`. -/
inductive ScrollResult where
  | found (scrolls : Nat) (center : Option Point) : ScrollResult
  | notFound (maxScrolls : Int) : ScrollResult
deriving DecidableEq

/-- The loop of `scroll_to_text`: at iteration `i`, search the `i`-th dump;
return on a hit, otherwise scroll and continue while fuel remains. -/
def scrollAux (dumps : Nat → List Char) (t : List Char) (maxS : Int) :
    Nat → Nat → ScrollResult
  | 0, _ => .notFound maxS
  | fuel + 1, i =>
    match find_element_by_text (dumps i) t true with
    | e :: _ => .found i e.center
    | [] => scrollAux dumps t maxS fuel (i + 1)

/-- `scroll_to_text` with the sequence of dumps the transport returns on
successive hierarchy captures; `max_scrolls` is an integer and the loop
runs `range(max_scrolls)`. -/
def scroll_to_text (dumps : Nat → List Char) (t : List Char) (maxS : Int) :
    ScrollResult :=
  scrollAux dumps t maxS maxS.toNat 0

/-- Number of dump-and-search attempts a run of `scroll_to_text` performs. -/
def scrollCountAux (dumps : Nat → List Char) (t : List Char) :
    Nat → Nat → Nat
  | 0, _ => 0
  | fuel + 1, i =>
    match find_element_by_text (dumps i) t true with
    | _ :: _ => 1
    | [] => 1 + scrollCountAux dumps t fuel (i + 1)

def scroll_attempts (dumps : Nat → List Char) (t : List Char) (maxS : Int) : Nat :=
  scrollCountAux dumps t maxS.toNat 0

/-- Android density buckets. -/
inductive Bucket where
  | ldpi | mdpi | hdpi | xhdpi | xxhdpi | xxxhdpi
deriving DecidableEq

/-- `get_density_bucket`: map DPI to a density bucket by inclusive upper
thresholds. -/
def get_density_bucket (dpi : Int) : Bucket :=
  if dpi ≤ 120 then .ldpi
  else if dpi ≤ 160 then .mdpi
  else if dpi ≤ 240 then .hdpi
  else if dpi ≤ 320 then .xhdpi
  else if dpi ≤ 480 then .xxhdpi
  else .xxxhdpi

/-- The point `tap_element` should act on, per the specification: the first
partial text match's center when a non-empty text is given, else the id
match's center when a non-empty resource id is given, else nothing. -/
def selectedCenter (xml : List Char) (t rid : Option (List Char)) : Option Point :=
  if truthyStr t then
    ((find_element_by_text xml (t.getD []) true).head?).bind TElem.center
  else if truthyStr rid then
    (find_element_by_id xml (rid.getD [])).bind IdElem.center
  else none

/-- Match predicate of `findByText` as the specification words it: the
query matches the text field or the content-description field; with
partial matching, case-insensitive containment against each field
independently; without, case-sensitive equality against at least one. -/
def matchesTextSpec (q : List Char) (pm : Bool) (e : TElem) : Bool :=
  if pm then
    containsSub (lowerL q) (lowerL e.text) || containsSub (lowerL q) (lowerL e.content_desc)
  else (q == e.text) || (q == e.content_desc)

/-- The record `find_element_by_text` builds for a node token. -/
def extractTE (n : List Char) : TElem :=
  { text := (extractAttr textKey n).getD []
    content_desc := (extractAttr descKey n).getD []
    center := (boundsSearch n).map centerOf
    bounds := boundsSearch n }

/-- Match predicate of `findById` as the specification words it: the node's
resource-id attribute is present and contains the query as a
case-sensitive substring. -/
def idMatches (q : List Char) (n : List Char) : Bool :=
  match extractAttr ridKey n with
  | some v => containsSub q v
  | none => false

/-- Recognizer for the exact bounds value form, per the specification: the
attribute value is exactly `[a,b][c,d]` with four non-negative integers. -/
def parseBoundsValue (v : List Char) : Option BoundsRec :=
  match v with
  | [] => none
  | c :: rest =>
    if c = '[' then
      match boundsBody rest with
      | some p => if p.2 = [] then some p.1 else none
      | none => none
    else none

/-- A node token carrying a single bounds attribute with value `v`. -/
def mkBoundsNode (v : List Char) : List Char :=
  '<' :: 'n' :: 'o' :: 'd' :: 'e' :: ' ' ::
  'b' :: 'o' :: 'u' :: 'n' :: 'd' :: 's' :: '=' :: '"' :: (v ++ ['"', '>'])

/-- The two-node dump of the specification's testable properties: node A
with text, clickable and bounds; node B with text and bounds but no
clickable attribute. -/
def dumpAB : List Char :=
  ("<node text=\"Submit\" clickable=\"true\" bounds=\"[100,200][300,250]\" /><node text=\"Welcome\" bounds=\"[0,0][400,100]\" />").toList

/-- The record `get_clickable_elements` extracts for node A of `dumpAB`. -/
def recA : CElem :=
  ⟨some ("Submit".toList), none, none, some ⟨100, 200, 300, 250⟩,
    some ⟨200, 225⟩, some ⟨200, 50⟩, none⟩

/-- A node whose `clickable` attribute is `"false"` while its
`long-clickable` attribute is `"true"`. -/
def cNodeC : List Char :=
  ("<node clickable=\"false\" long-clickable=\"true\" bounds=\"[0,0][2,2]\">").toList

/-- A clickable-pattern node from which no attribute can be extracted. -/
def bareNode : List Char := ("<node clickable=\"true\">").toList

/-- A dump with one node carrying a namespaced resource id. -/
def idDump : List Char :=
  ("<node text=\"Go\" resource-id=\"com.app:id/button_submit\" bounds=\"[0,0][10,10]\" />").toList

/-- The inverted rectangle value of the specification's testable
properties. -/
def invVal : List Char := ("[300,250][100,200]").toList

def invB : BoundsRec := ⟨300, 250, 100, 200⟩

/-- A node carrying the inverted bounds value. -/
def invNode : List Char := ("<node text=\"X\" bounds=\"[300,250][100,200]\" />").toList

/-- The string a failed transport invocation yields in place of a dump. -/
def errDump : List Char := ("Error: Command timed out").toList

lemma nodeLit_not_isPrefixOf {c : Char} {cs : List Char} (h : c ≠ '<') :
    nodeLit.isPrefixOf (c :: cs) = false := by
  simp [nodeLit, List.isPrefixOf]
  intro hc
  exact absurd hc.symm h

lemma findNodesA_eq_nil_of_no_lt :
    ∀ (fuel : Nat) (s : List Char), '<' ∉ s → findNodesA fuel s = [] := by
  intro fuel
  induction fuel with
  | zero => intro s _; cases s <;> rfl
  | succ n ih =>
    intro s hs
    cases s with
    | nil => rfl
    | cons c cs =>
      have hc : c ≠ '<' := by
        intro h; exact hs (by simp [h])
      have hcs : '<' ∉ cs := fun h => hs (List.mem_cons_of_mem _ h)
      simp [findNodesA, nodeLit_not_isPrefixOf hc, ih cs hcs]

lemma find_by_text_eq_nil_of_no_lt (xml q : List Char) (pm : Bool)
    (h : '<' ∉ xml) : find_element_by_text xml q pm = [] := by
  unfold find_element_by_text findNodes
  rw [findNodesA_eq_nil_of_no_lt _ _ h]
  rfl

lemma scrollAux_all_miss (dumps : Nat → List Char) (t : List Char) (m : Int)
    (h : ∀ i, find_element_by_text (dumps i) t true = []) :
    ∀ fuel i, scrollAux dumps t m fuel i = .notFound m ∧
      scrollCountAux dumps t fuel i = fuel := by
  intro fuel
  induction fuel with
  | zero => intro i; exact ⟨rfl, rfl⟩
  | succ n ih =>
    intro i
    have h1 := (ih (i + 1)).1
    have h2 := (ih (i + 1)).2
    constructor
    · simp [scrollAux, h i, h1]
    · simp [scrollCountAux, h i, h2, Nat.add_comm]

lemma scrollCountAux_le (dumps : Nat → List Char) (t : List Char) :
    ∀ fuel i, scrollCountAux dumps t fuel i ≤ fuel := by
  intro fuel
  induction fuel with
  | zero => intro i; exact Nat.le_refl 0
  | succ n ih =>
    intro i
    unfold scrollCountAux
    cases find_element_by_text (dumps i) t true with
    | nil => simpa [Nat.add_comm] using Nat.add_le_add_right (ih (i + 1)) 1
    | cons e es => simp

/-- C5: when no consulted dump contains the target, `scroll_to_text`
reaches the not-found (exhausted) outcome after exactly `max_scrolls`
dump-and-search attempts (so, exactly 3 when `max_scrolls = 3`), and in
general no run performs more than `max_scrolls` search attempts. -/
theorem scroll_exhausts_after_max_attempts :
    (∀ (dumps : Nat → List Char) (t : List Char) (m : Int),
        (∀ i, find_element_by_text (dumps i) t true = []) →
        scroll_to_text dumps t m = .notFound m ∧ scroll_attempts dumps t m = m.toNat)
    ∧ (∀ (dumps : Nat → List Char) (t : List Char) (m : Int),
        scroll_attempts dumps t m ≤ m.toNat) := by
  constructor
  · intro dumps t m h
    exact scrollAux_all_miss dumps t m h m.toNat 0
  · intro dumps t m
    exact scrollCountAux_le dumps t m.toNat 0

/-- Witness for C5 at `max_scrolls = 3` with dumps never containing the
target: exactly three attempts, exhausted outcome. -/
theorem scroll_exhausts_witness :
    scroll_to_text (fun _ => []) ['Q'] 3 = .notFound 3 ∧
      scroll_attempts (fun _ => []) ['Q'] 3 = 3 :=
  scroll_exhausts_after_max_attempts.1 (fun _ => []) ['Q'] 3 (fun _ => rfl)

/-- C2 counterexample: a run in which every dump acquisition fails (the
transport yields an error string instead of a dump) terminates in the
not-found (exhausted) outcome after the full three attempts — there is no
distinct transport-error outcome. -/
theorem scroll_transport_failure_counterexample :
    scroll_to_text (fun _ => errDump) ("Submit".toList) 3 = .notFound 3 ∧
      scroll_attempts (fun _ => errDump) ("Submit".toList) 3 = 3 := by
  decide

/-- C2 amended: `scroll_to_text` does not detect acquisition failure; a
failed acquisition yields an error string with no node marker, the search
finds nothing there, the loop continues, and a run whose acquisitions all
fail ends in the same not-found (exhausted) outcome after `max_scrolls`
attempts. -/
theorem scroll_transport_failure_exhausts :
    ∀ (dumps : Nat → List Char) (t : List Char) (m : Int),
      (∀ i, '<' ∉ dumps i) →
      scroll_to_text dumps t m = .notFound m ∧ scroll_attempts dumps t m = m.toNat := by
  intro dumps t m h
  exact scrollAux_all_miss dumps t m
    (fun i => find_by_text_eq_nil_of_no_lt _ _ _ (h i)) m.toNat 0

/-- Witness for the amended C2. -/
theorem scroll_transport_failure_witness :
    (∀ i : Nat, '<' ∉ (fun _ : Nat => errDump) i) ∧
      (scroll_to_text (fun _ => errDump) ['a'] 2 = .notFound 2 ∧
        scroll_attempts (fun _ => errDump) ['a'] 2 = 2) :=
  ⟨fun _ => by show '<' ∉ errDump; decide,
    scroll_transport_failure_exhausts (fun _ => errDump) ['a'] 2
      (fun _ => by show '<' ∉ errDump; decide)⟩

/-- C6 counterexample: called with `max_scrolls = 0` (non-positive), the
operation does not fail with an invalid-argument error — it runs zero
iterations and reports the not-found outcome. -/
theorem scroll_nonpositive_counterexample :
    scroll_to_text (fun _ => []) ['Q'] 0 = .notFound 0 ∧
      scroll_attempts (fun _ => []) ['Q'] 0 = 0 := by
  decide

/-- C6 amended: with a non-positive `max_scrolls` the loop body never runs:
zero dump-and-search attempts are made and the not-found report quoting
`max_scrolls` is returned; no invalid-argument failure exists. -/
theorem scroll_nonpositive_reports_not_found :
    ∀ (dumps : Nat → List Char) (t : List Char) (m : Int), m ≤ 0 →
      scroll_to_text dumps t m = .notFound m ∧ scroll_attempts dumps t m = 0 := by
  intro dumps t m h
  have hz : m.toNat = 0 := Int.toNat_of_nonpos h
  unfold scroll_to_text scroll_attempts
  rw [hz]
  exact ⟨rfl, rfl⟩

/-- Witness for the amended C6. -/
theorem scroll_nonpositive_witness :
    (-5 : Int) ≤ 0 ∧
      (scroll_to_text (fun _ => []) ['Q'] (-5) = .notFound (-5) ∧
        scroll_attempts (fun _ => []) ['Q'] (-5) = 0) :=
  ⟨by decide, scroll_nonpositive_reports_not_found (fun _ => []) ['Q'] (-5) (by decide)⟩

/-- C9: the density bucket function is total over the integers with
inclusive upper bounds and neither gaps nor overlaps, and the boundary
table maps 120,121,160,161,240,241,320,321,480,481 to
ldpi,mdpi,mdpi,hdpi,hdpi,xhdpi,xhdpi,xxhdpi,xxhdpi,xxxhdpi. -/
theorem density_bucket_thresholds :
    (∀ dpi : Int,
      (get_density_bucket dpi = .ldpi ↔ dpi ≤ 120) ∧
      (get_density_bucket dpi = .mdpi ↔ 120 < dpi ∧ dpi ≤ 160) ∧
      (get_density_bucket dpi = .hdpi ↔ 160 < dpi ∧ dpi ≤ 240) ∧
      (get_density_bucket dpi = .xhdpi ↔ 240 < dpi ∧ dpi ≤ 320) ∧
      (get_density_bucket dpi = .xxhdpi ↔ 320 < dpi ∧ dpi ≤ 480) ∧
      (get_density_bucket dpi = .xxxhdpi ↔ 480 < dpi))
    ∧ (get_density_bucket 120 = .ldpi ∧ get_density_bucket 121 = .mdpi ∧
       get_density_bucket 160 = .mdpi ∧ get_density_bucket 161 = .hdpi ∧
       get_density_bucket 240 = .hdpi ∧ get_density_bucket 241 = .xhdpi ∧
       get_density_bucket 320 = .xhdpi ∧ get_density_bucket 321 = .xxhdpi ∧
       get_density_bucket 480 = .xxhdpi ∧ get_density_bucket 481 = .xxxhdpi) := by
  constructor
  · intro dpi
    unfold get_density_bucket
    split_ifs <;> simp <;> omega
  · exact ⟨rfl, rfl, rfl, rfl, rfl, rfl, rfl, rfl, rfl, rfl⟩

/-- C7: `tap_element` taps exactly at the selected candidate's center —
when a (non-empty, per the source's truthiness test) text is given, the
first partial text match; else, when a non-empty resource id is given, the
id match — and whenever there is no candidate or the candidate carries no
center it reports not-found, never substituting a default point. -/
theorem tap_element_center_resolution :
    ∀ (xml : List Char) (t rid : Option (List Char)),
      (∀ x y, tap_element xml t rid = .tapped x y ↔
        selectedCenter xml t rid = some ⟨x, y⟩) ∧
      (tap_element xml t rid = .notFound ↔ selectedCenter xml t rid = none) := by
  intro xml t rid
  unfold tap_element selectedCenter
  by_cases ht : truthyStr t = true
  · simp only [ht, if_true]
    cases hf : find_element_by_text xml (t.getD []) true with
    | nil => simp
    | cons e es =>
      cases hc : e.center with
      | none => simp [candCenter, hc]
      | some p =>
        obtain ⟨px, py⟩ := p
        constructor
        · intro x y
          simp [candCenter, hc, Point.mk.injEq, eq_comm]
        · simp [candCenter, hc]
  · simp only [ht, if_false, Bool.false_eq_true]
    by_cases hr : truthyStr rid = true
    · simp only [hr, if_true]
      cases hf : find_element_by_id xml (rid.getD []) with
      | none => simp
      | some e =>
        cases hc : e.center with
        | none => simp [candCenter, hc]
        | some p =>
          obtain ⟨px, py⟩ := p
          constructor
          · intro x y
            simp [candCenter, hc, Point.mk.injEq, eq_comm]
          · simp [candCenter, hc]
    · simp [hr]

lemma all_of_filterMap_guard {α : Type} (p : CElem → Bool) (f : α → CElem) :
    ∀ l : List α,
      ((l.filterMap fun a => if p (f a) then some (f a) else none).all p) = true := by
  intro l
  induction l with
  | nil => rfl
  | cons a l ih =>
    simp only [List.filterMap_cons]
    by_cases h : p (f a) = true
    · simp [h, ih]
    · simp [h, ih]

/-- C10: every record `get_clickable_elements` returns is non-empty (at
least one extracted field), and a node that matches the clickable pattern
but yields no extractable attribute produces an empty record that is
silently omitted. -/
theorem clickable_records_nonempty :
    (∀ xml, (get_clickable_elements xml).all elemNonempty = true) ∧
      findClickableNodes bareNode = [bareNode] ∧
      get_clickable_elements bareNode = [] := by
  refine ⟨fun xml => ?_, by decide, by decide⟩
  exact all_of_filterMap_guard elemNonempty mkCElem (findClickableNodes xml)

lemma findIdInNodes_eq_find? (q : List Char) :
    ∀ ns, findIdInNodes q ns = ((ns.find? (idMatches q)).map mkIdElemOf) := by
  intro ns
  induction ns with
  | nil => rfl
  | cons n ns ih =>
    unfold findIdInNodes
    cases hA : extractAttr ridKey n with
    | none =>
      have hm : ¬ idMatches q n = true := by simp [idMatches, hA]
      rw [List.find?_cons_of_neg _ hm]
      exact ih
    | some v =>
      by_cases hc : containsSub q v = true
      · have hm : idMatches q n = true := by simp [idMatches, hA, hc]
        rw [List.find?_cons_of_pos _ hm]
        simp [hc]
      · have hm : ¬ idMatches q n = true := by simp [idMatches, hA, hc]
        rw [List.find?_cons_of_neg _ hm]
        simp [hc, ih]

/-- C4: `find_element_by_id` returns the record of the first node in
document order whose resource-id attribute contains the query as a
case-sensitive substring, and `none` exactly when no node's resource id
contains the query; on the namespaced id `com.app:id/button_submit`, the
query `button_submit` succeeds and `nonexistent` yields `none`. -/
theorem find_by_id_first_match :
    (∀ xml q, find_element_by_id xml q =
        ((findNodes xml).find? (idMatches q)).map mkIdElemOf) ∧
      (∀ xml q, find_element_by_id xml q = none ↔
        ∀ n ∈ findNodes xml, idMatches q n = false) ∧
      find_element_by_id idDump ("button_submit".toList) =
        some ⟨("com.app:id/button_submit").toList, some ("Go".toList),
          some ⟨5, 5⟩, some ⟨0, 0, 10, 10⟩⟩ ∧
      find_element_by_id idDump ("nonexistent".toList) = none := by
  have hmain : ∀ xml q, find_element_by_id xml q =
      ((findNodes xml).find? (idMatches q)).map mkIdElemOf :=
    fun xml q => findIdInNodes_eq_find? q (findNodes xml)
  refine ⟨hmain, fun xml q => ?_, by decide, by decide⟩
  rw [hmain]
  simp [List.find?_eq_none]

lemma ftext_filter_of_map (q : List Char) (pm : Bool) :
    ∀ ns : List (List Char),
      (ns.filterMap fun node =>
        if matchesTextSpec q pm (extractTE node) then some (extractTE node) else none) =
      ((ns.map extractTE).filter (matchesTextSpec q pm)) := by
  intro ns
  induction ns with
  | nil => rfl
  | cons n ns ih =>
    simp only [List.filterMap_cons, List.map_cons, List.filter_cons]
    by_cases h : matchesTextSpec q pm (extractTE n) = true
    · simp [h, ih]
    · simp [h, ih]

/-- C3: `find_element_by_text` returns, in document order, exactly the
records of nodes whose text field or content-description field matches the
query — case-insensitive substring containment against each field
independently with partial matching, case-sensitive equality against at
least one field without; on the two-node dump, `submit` (partial) returns
exactly node A's record and `home` returns nothing. -/
theorem find_by_text_match_semantics :
    (∀ (xml q : List Char) (pm : Bool),
        find_element_by_text xml q pm =
          ((findNodes xml).map extractTE).filter (matchesTextSpec q pm)) ∧
      find_element_by_text dumpAB ("submit".toList) true =
        [⟨("Submit".toList), [], some ⟨200, 225⟩, some ⟨100, 200, 300, 250⟩⟩] ∧
      find_element_by_text dumpAB ("home".toList) true = [] := by
  refine ⟨fun xml q pm => ?_, by decide, by decide⟩
  have hbridge : find_element_by_text xml q pm =
      (findNodes xml).filterMap fun node =>
        if matchesTextSpec q pm (extractTE node) then some (extractTE node) else none := rfl
  rw [hbridge]
  exact ftext_filter_of_map q pm (findNodes xml)

lemma takeWhile_digit_append_qt :
    ∀ a : List Char,
      (a ++ ['"', '>']).takeWhile Char.isDigit = a.takeWhile Char.isDigit ∧
      (a ++ ['"', '>']).dropWhile Char.isDigit = a.dropWhile Char.isDigit ++ ['"', '>'] := by
  intro a
  induction a with
  | nil => exact ⟨rfl, rfl⟩
  | cons c a ih =>
    by_cases h : c.isDigit = true
    · simp [List.takeWhile_cons, List.dropWhile_cons, h, ih.1, ih.2]
    · simp [List.takeWhile_cons, List.dropWhile_cons, h]

lemma readNat_append_qt (a : List Char) :
    readNat (a ++ ['"', '>']) =
      match readNat a with
      | some p => some (p.1, p.2 ++ ['"', '>'])
      | none => none := by
  unfold readNat
  rw [(takeWhile_digit_append_qt a).1, (takeWhile_digit_append_qt a).2]
  by_cases he : (a.takeWhile Char.isDigit).isEmpty = true <;> simp [he]

lemma expectCh_append_qt (c : Char) (hne : c ≠ '"') (a : List Char) :
    expectCh c (a ++ ['"', '>']) =
      match expectCh c a with
      | some r => some (r ++ ['"', '>'])
      | none => none := by
  cases a with
  | nil =>
    have h : ¬ ('"' = c) := fun h => hne h.symm
    simp [expectCh, h]
  | cons x xs => by_cases h : x = c <;> simp [expectCh, h]

lemma numPair_append_qt (s : List Char) :
    numPair (s ++ ['"', '>']) =
      match numPair s with
      | some q => some (q.1, q.2 ++ ['"', '>'])
      | none => none := by
  unfold numPair
  cases h1 : readNat s with
  | none =>
    have h1' : readNat (s ++ ['"', '>']) = none := by rw [readNat_append_qt, h1]
    simp [h1']
  | some p1 =>
    have h1' : readNat (s ++ ['"', '>']) = some (p1.1, p1.2 ++ ['"', '>']) := by
      rw [readNat_append_qt, h1]
    cases h2 : expectCh ',' p1.2 with
    | none =>
      have h2' : expectCh ',' (p1.2 ++ ['"', '>']) = none := by
        rw [expectCh_append_qt ',' (by decide), h2]
      simp [h1', h2, h2']
    | some s1 =>
      have h2' : expectCh ',' (p1.2 ++ ['"', '>']) = some (s1 ++ ['"', '>']) := by
        rw [expectCh_append_qt ',' (by decide), h2]
      cases h3 : readNat s1 with
      | none =>
        have h3' : readNat (s1 ++ ['"', '>']) = none := by rw [readNat_append_qt, h3]
        simp [h1', h2, h2', h3, h3']
      | some p2 =>
        have h3' : readNat (s1 ++ ['"', '>']) = some (p2.1, p2.2 ++ ['"', '>']) := by
          rw [readNat_append_qt, h3]
        cases h4 : expectCh ']' p2.2 with
        | none =>
          have h4' : expectCh ']' (p2.2 ++ ['"', '>']) = none := by
            rw [expectCh_append_qt ']' (by decide), h4]
          simp [h1', h2, h2', h3, h3', h4, h4']
        | some s2 =>
          have h4' : expectCh ']' (p2.2 ++ ['"', '>']) = some (s2 ++ ['"', '>']) := by
            rw [expectCh_append_qt ']' (by decide), h4]
          simp [h1', h2, h2', h3, h3', h4, h4']

lemma boundsBody_append_qt (s : List Char) :
    boundsBody (s ++ ['"', '>']) =
      match boundsBody s with
      | some p => some (p.1, p.2 ++ ['"', '>'])
      | none => none := by
  unfold boundsBody
  cases h1 : numPair s with
  | none =>
    have h1' : numPair (s ++ ['"', '>']) = none := by rw [numPair_append_qt, h1]
    simp [h1']
  | some q1 =>
    have h1' : numPair (s ++ ['"', '>']) = some (q1.1, q1.2 ++ ['"', '>']) := by
      rw [numPair_append_qt, h1]
    cases h2 : expectCh '[' q1.2 with
    | none =>
      have h2' : expectCh '[' (q1.2 ++ ['"', '>']) = none := by
        rw [expectCh_append_qt '[' (by decide), h2]
      simp [h1', h2, h2']
    | some s3 =>
      have h2' : expectCh '[' (q1.2 ++ ['"', '>']) = some (s3 ++ ['"', '>']) := by
        rw [expectCh_append_qt '[' (by decide), h2]
      cases h3 : numPair s3 with
      | none =>
        have h3' : numPair (s3 ++ ['"', '>']) = none := by rw [numPair_append_qt, h3]
        simp [h1', h2, h2', h3, h3']
      | some q2 =>
        have h3' : numPair (s3 ++ ['"', '>']) = some (q2.1, q2.2 ++ ['"', '>']) := by
          rw [numPair_append_qt, h3]
        simp [h1', h2, h2', h3, h3']

lemma readNat_suffix {s : List Char} {p : Nat × List Char}
    (h : readNat s = some p) : p.2 <:+ s := by
  unfold readNat at h
  by_cases he : (s.takeWhile Char.isDigit).isEmpty = true
  · simp [he] at h
  · rw [if_neg he] at h
    simp only [Option.some.injEq] at h
    rw [← h]
    exact List.dropWhile_suffix _

lemma expectCh_suffix {c : Char} {s r : List Char}
    (h : expectCh c s = some r) : r <:+ s := by
  cases s with
  | nil => simp [expectCh] at h
  | cons x xs =>
    by_cases hx : x = c
    · simp only [expectCh, hx, if_true, Option.some.injEq] at h
      rw [← h]
      exact List.suffix_cons x xs
    · simp [expectCh, hx] at h

lemma numPair_suffix {s : List Char} {q : (Nat × Nat) × List Char}
    (h : numPair s = some q) : q.2 <:+ s := by
  unfold numPair at h
  cases h1 : readNat s with
  | none => rw [h1] at h; simp at h
  | some p1 =>
    rw [h1] at h
    simp only [Option.some_bind] at h
    cases h2 : expectCh ',' p1.2 with
    | none => rw [h2] at h; simp at h
    | some s1 =>
      rw [h2] at h
      simp only [Option.some_bind] at h
      cases h3 : readNat s1 with
      | none => rw [h3] at h; simp at h
      | some p2 =>
        rw [h3] at h
        simp only [Option.some_bind] at h
        cases h4 : expectCh ']' p2.2 with
        | none => rw [h4] at h; simp at h
        | some s2 =>
          rw [h4] at h
          simp only [Option.map_some', Option.some.injEq] at h
          have : q.2 = s2 := by rw [← h]
          rw [this]
          exact (((expectCh_suffix h4).trans (readNat_suffix h3)).trans
            (expectCh_suffix h2)).trans (readNat_suffix h1)

lemma boundsBody_suffix {s : List Char} {p : BoundsRec × List Char}
    (h : boundsBody s = some p) : p.2 <:+ s := by
  unfold boundsBody at h
  cases h1 : numPair s with
  | none => rw [h1] at h; simp at h
  | some q1 =>
    rw [h1] at h
    simp only [Option.some_bind] at h
    cases h2 : expectCh '[' q1.2 with
    | none => rw [h2] at h; simp at h
    | some s3 =>
      rw [h2] at h
      simp only [Option.some_bind] at h
      cases h3 : numPair s3 with
      | none => rw [h3] at h; simp at h
      | some q2 =>
        rw [h3] at h
        simp only [Option.map_some', Option.some.injEq] at h
        have : p.2 = q2.2 := by rw [← h]
        rw [this]
        exact ((numPair_suffix h3).trans (expectCh_suffix h2)).trans (numPair_suffix h1)

lemma tryBounds_anchor (v : List Char) (hq : '"' ∉ v) :
    tryBounds (v ++ ['"', '>']) =
      match boundsBody v with
      | some p => if p.2 = [] then some p.1 else none
      | none => none := by
  unfold tryBounds
  cases hb : boundsBody v with
  | none =>
    have hb' : boundsBody (v ++ ['"', '>']) = none := by rw [boundsBody_append_qt, hb]
    simp [hb']
  | some p =>
    have hb' : boundsBody (v ++ ['"', '>']) = some (p.1, p.2 ++ ['"', '>']) := by
      rw [boundsBody_append_qt, hb]
    rw [hb']
    cases hr : p.2 with
    | nil => simp [expectCh, hr]
    | cons c rs =>
      have hc : ¬ (c = '"') := by
        intro hcq
        apply hq
        have : c ∈ p.2 := by rw [hr]; exact List.mem_cons_self c rs
        rw [← hcq]
        exact (boundsBody_suffix hb).sublist.subset this
      simp [expectCh, hr, hc]

lemma quoted_lit_not_prefix :
    ∀ (w l : List Char), '"' ∉ w → '"' ∉ l →
      ((w ++ ['"', '[']).isPrefixOf (l ++ ['"', '>'])) = false := by
  intro w
  induction w with
  | nil =>
    intro l _ hl
    cases l with
    | nil => decide
    | cons a l' =>
      have ha : ¬ ('"' = a) := fun h => hl (by rw [h]; exact List.mem_cons_self a l')
      simp [List.isPrefixOf, ha]
  | cons x w' ih =>
    intro l hw hl
    have hx : ¬ (x = '"') := fun h => hw (by rw [← h]; exact List.mem_cons_self x w')
    have hw' : '"' ∉ w' := fun h => hw (List.mem_cons_of_mem _ h)
    cases l with
    | nil => simp [List.isPrefixOf, hx]
    | cons a l' =>
      have hl' : '"' ∉ l' := fun h => hl (List.mem_cons_of_mem _ h)
      by_cases hxa : x = a
      · simp [List.isPrefixOf, hxa, ih l' hw' hl']
      · simp [List.isPrefixOf, hxa]

lemma boundsLit_not_prefix_qt {l : List Char} (hl : '"' ∉ l) :
    boundsLit.isPrefixOf (l ++ ['"', '>']) = false :=
  quoted_lit_not_prefix ['b', 'o', 'u', 'n', 'd', 's', '='] l (by decide) hl

lemma boundsSearch_append_qt_eq_none :
    ∀ l : List Char, '"' ∉ l → boundsSearch (l ++ ['"', '>']) = none := by
  intro l
  induction l with
  | nil => intro _; decide
  | cons c l' ih =>
    intro hl
    have hl' : '"' ∉ l' := fun h => hl (List.mem_cons_of_mem _ h)
    have hp : boundsLit.isPrefixOf (c :: (l' ++ ['"', '>'])) = false := by
      have := boundsLit_not_prefix_qt hl
      rw [List.cons_append] at this
      exact this
    show boundsSearch (c :: (l' ++ ['"', '>'])) = none
    simp only [boundsSearch, hp, Bool.false_eq_true, if_false]
    exact ih hl'

lemma boundsSearch_mkNode (v : List Char) (hq : '"' ∉ v) :
    boundsSearch (mkBoundsNode v) = parseBoundsValue v := by
  cases v with
  | nil => decide
  | cons c v' =>
    have hq' : '"' ∉ v' := fun h => hq (List.mem_cons_of_mem _ h)
    by_cases hlb : c = '['
    · subst hlb
      have red0 : boundsSearch (mkBoundsNode ('[' :: v')) =
          boundsSearch
            ('b' :: 'o' :: 'u' :: 'n' :: 'd' :: 's' :: '=' :: '"' :: '[' :: (v' ++ ['"', '>'])) := rfl
      have h0 : boundsLit.isPrefixOf
          ('b' :: 'o' :: 'u' :: 'n' :: 'd' :: 's' :: '=' :: '"' :: '[' :: (v' ++ ['"', '>'])) =
          (('[' == '[') && List.isPrefixOf [] (v' ++ ['"', '>'])) := rfl
      have htrue : boundsLit.isPrefixOf
          ('b' :: 'o' :: 'u' :: 'n' :: 'd' :: 's' :: '=' :: '"' :: '[' :: (v' ++ ['"', '>'])) =
          true := by rw [h0]; simp [List.isPrefixOf]
      have hdrop : (('o' :: 'u' :: 'n' :: 'd' :: 's' :: '=' :: '"' :: '[' :: (v' ++ ['"', '>'])).drop 8) =
          v' ++ ['"', '>'] := rfl
      have red2 : boundsSearch
          ('o' :: 'u' :: 'n' :: 'd' :: 's' :: '=' :: '"' :: '[' :: (v' ++ ['"', '>'])) =
          boundsSearch (v' ++ ['"', '>']) := rfl
      rw [red0, boundsSearch, htrue, hdrop, red2, tryBounds_anchor v' hq']
      simp only [parseBoundsValue, if_pos rfl, if_true]
      cases hb : boundsBody v' with
      | none => simp [boundsSearch_append_qt_eq_none v' hq']
      | some p =>
        by_cases hpr : p.2 = []
        · simp [hpr]
        · simp [hpr, boundsSearch_append_qt_eq_none v' hq']
    · have hpref : boundsLit.isPrefixOf
          ('b' :: 'o' :: 'u' :: 'n' :: 'd' :: 's' :: '=' :: '"' :: c :: (v' ++ ['"', '>'])) =
          (('[' == c) && List.isPrefixOf [] (v' ++ ['"', '>'])) := rfl
      have hcf : ('[' == c) = false := beq_eq_false_iff_ne.mpr (fun h => hlb h.symm)
      have hfalse : boundsLit.isPrefixOf
          ('b' :: 'o' :: 'u' :: 'n' :: 'd' :: 's' :: '=' :: '"' :: c :: (v' ++ ['"', '>'])) =
          false := by rw [hpref, hcf]; rfl
      have red1 : boundsSearch (mkBoundsNode (c :: v')) =
          boundsSearch
            ('b' :: 'o' :: 'u' :: 'n' :: 'd' :: 's' :: '=' :: '"' :: c :: (v' ++ ['"', '>'])) := rfl
      have step2 : boundsSearch
          ('o' :: 'u' :: 'n' :: 'd' :: 's' :: '=' :: '"' :: c :: (v' ++ ['"', '>'])) =
          boundsSearch (c :: (v' ++ ['"', '>'])) := rfl
      have step3 : boundsSearch (c :: (v' ++ ['"', '>'])) = none :=
        boundsSearch_append_qt_eq_none (c :: v') hq
      rw [red1, boundsSearch, hfalse]
      simp only [Bool.false_eq_true, if_false]
      rw [step2, step3]
      simp [parseBoundsValue, hlb]

/-- C8: for a node carrying a bounds attribute with a quote-free value,
the search-based extraction recognizes bounds exactly when the value as a
whole matches the form `[a,b][c,d]` with four non-negative integers
(`parseBoundsValue`); ordering of the coordinates is not enforced — the
inverted value `[300,250][100,200]` yields bounds with `x2 < x1` and
`y2 < y1`, its center is still computed by floor-dividing each axis sum by
two, giving `(200,225)` through the query pipeline; any other value form
leaves bounds absent. -/
theorem bounds_recognition_exact_form :
    (∀ v : List Char, '"' ∉ v → boundsSearch (mkBoundsNode v) = parseBoundsValue v) ∧
      boundsSearch invNode = some invB ∧
      invB.x2 < invB.x1 ∧ invB.y2 < invB.y1 ∧
      centerOf invB = ⟨200, 225⟩ ∧
      find_element_by_text invNode ("X".toList) true =
        [⟨("X".toList), [], some ⟨200, 225⟩, some invB⟩] :=
  ⟨boundsSearch_mkNode, by decide, by decide, by decide, by decide, by decide⟩

/-- Witness for C8, at a value with a leading zero in one coordinate. -/
theorem bounds_recognition_witness :
    '"' ∉ ("[01,2][3,44]".toList) ∧
      boundsSearch (mkBoundsNode ("[01,2][3,44]".toList)) =
        parseBoundsValue ("[01,2][3,44]".toList) :=
  ⟨by decide, bounds_recognition_exact_form.1 _ (by decide)⟩

lemma takeUpTo_eq_some {ch : Char} :
    ∀ {s a b : List Char}, takeUpTo ch s = some (a, b) → s = a ++ ch :: b ∧ ch ∉ a := by
  intro s
  induction s with
  | nil => intro a b h; simp [takeUpTo] at h
  | cons c cs ih =>
    intro a b h
    by_cases hc : c = ch
    · rw [takeUpTo, if_pos hc] at h
      simp only [Option.some.injEq, Prod.mk.injEq] at h
      rw [← h.1, ← h.2, hc]
      exact ⟨rfl, by simp⟩
    · rw [takeUpTo, if_neg hc] at h
      cases hin : takeUpTo ch cs with
      | none => rw [hin] at h; simp at h
      | some p =>
        rw [hin] at h
        simp only [Option.map_some', Option.some.injEq] at h
        obtain ⟨hcs, hna⟩ := ih (a := p.1) (b := p.2) (by rw [hin])
        cases h
        constructor
        · rw [hcs]; rfl
        · intro hm
          rcases List.mem_cons.mp hm with h1 | h2
          · exact hc h1.symm
          · exact hna h2

lemma takeUpTo_length {ch : Char} {s a b : List Char}
    (h : takeUpTo ch s = some (a, b)) : b.length < s.length := by
  obtain ⟨hd, _⟩ := takeUpTo_eq_some h
  rw [hd]
  simp only [List.length_append, List.length_cons]
  omega

lemma takeUpTo_of_append {ch : Char} :
    ∀ {a : List Char}, ch ∉ a → ∀ b, takeUpTo ch (a ++ ch :: b) = some (a, b) := by
  intro a
  induction a with
  | nil => intro _ b; simp [takeUpTo]
  | cons x xs ih =>
    intro hna b
    have hx : ¬ (x = ch) := fun h => hna (by rw [h]; exact List.mem_cons_self ch xs)
    have hxs : ch ∉ xs := fun h => hna (List.mem_cons_of_mem _ h)
    show takeUpTo ch (x :: (xs ++ ch :: b)) = some (x :: xs, b)
    rw [takeUpTo, if_neg hx, ih hxs b]
    rfl

lemma nodeLit_prefix_decomp {c : Char} {cs : List Char}
    (h : nodeLit.isPrefixOf (c :: cs) = true) :
    c = '<' ∧ ∃ cs4, cs = 'n' :: 'o' :: 'd' :: 'e' :: cs4 := by
  rw [List.isPrefixOf_iff_prefix] at h
  obtain ⟨t, ht⟩ := h
  have ht' : '<' :: 'n' :: 'o' :: 'd' :: 'e' :: t = c :: cs := ht
  simp only [List.cons.injEq] at ht'
  exact ⟨ht'.1.symm, t, ht'.2.symm⟩

lemma containsSub_tail {t x : List Char} {c : Char}
    (h : containsSub t (c :: x) = false) : containsSub t x = false := by
  rw [containsSub] at h
  exact (Bool.or_eq_false_iff.mp h).2

lemma clickLit_not_prefix_ne {c : Char} (h : c ≠ 'c') (xs : List Char) :
    clickLit.isPrefixOf (c :: xs) = false := by
  simp only [clickLit, List.isPrefixOf, Bool.and_eq_false_iff]
  left
  exact beq_eq_false_iff_ne.mpr (fun hc => h hc.symm)

lemma containsSub_click_cons_ne {c : Char} (h : c ≠ 'c') (xs : List Char) :
    containsSub clickLit (c :: xs) = containsSub clickLit xs := by
  rw [containsSub, clickLit_not_prefix_ne h, Bool.false_or]

lemma isPrefixOf_append_single {ch : Char} :
    ∀ (t l : List Char), ch ∉ t → t.isPrefixOf (l ++ [ch]) = t.isPrefixOf l := by
  intro t
  induction t with
  | nil => intro l _; cases l <;> rfl
  | cons a t' ih =>
    intro l hna
    have ha : ¬ (a = ch) := fun h => hna (by rw [h]; exact List.mem_cons_self ch t')
    have ht' : ch ∉ t' := fun h => hna (List.mem_cons_of_mem _ h)
    cases l with
    | nil =>
      show (a :: t').isPrefixOf [ch] = (a :: t').isPrefixOf []
      simp only [List.isPrefixOf]
      rw [beq_eq_false_iff_ne.mpr ha]
      rfl
    | cons x l' =>
      show (a :: t').isPrefixOf (x :: (l' ++ [ch])) = (a :: t').isPrefixOf (x :: l')
      simp only [List.isPrefixOf]
      rw [ih l' ht']

lemma containsSub_append_single {ch : Char} :
    ∀ (t l : List Char), ch ∉ t → t ≠ [] → containsSub t (l ++ [ch]) = containsSub t l := by
  intro t l hna hne
  induction l with
  | nil =>
    show containsSub t [ch] = containsSub t []
    cases t with
    | nil => exact absurd rfl hne
    | cons a t' =>
      have ha : ¬ (a = ch) := fun h => hna (by rw [h]; exact List.mem_cons_self ch t')
      simp only [containsSub, List.isPrefixOf]
      rw [beq_eq_false_iff_ne.mpr ha]
      rfl
  | cons x l' ih =>
    show containsSub t (x :: (l' ++ [ch])) = containsSub t (x :: l')
    have hpre := isPrefixOf_append_single t (x :: l') hna
    rw [List.cons_append] at hpre
    rw [containsSub, containsSub, hpre, ih]

lemma containsSub_click_node_body (body : List Char) :
    containsSub clickLit ('n' :: 'o' :: 'd' :: 'e' :: body) = containsSub clickLit body := by
  rw [containsSub_click_cons_ne (by decide), containsSub_click_cons_ne (by decide),
    containsSub_click_cons_ne (by decide), containsSub_click_cons_ne (by decide)]

lemma containsSub_click_whole_node (body : List Char) :
    containsSub clickLit (nodeLit ++ body ++ ['>']) = containsSub clickLit body := by
  have h1 : nodeLit ++ body ++ ['>'] = '<' :: 'n' :: 'o' :: 'd' :: 'e' :: (body ++ ['>']) := by
    simp [nodeLit]
  rw [h1, containsSub_click_cons_ne (by decide), containsSub_click_node_body,
    containsSub_append_single clickLit body (by decide) (by decide)]

lemma findClickableNodesA_fuel_inv :
    ∀ f1 f2 (s : List Char), s.length ≤ f1 → s.length ≤ f2 →
      findClickableNodesA f1 s = findClickableNodesA f2 s := by
  intro f1
  induction f1 with
  | zero =>
    intro f2 s h1 _
    have hs : s = [] := List.eq_nil_of_length_eq_zero (Nat.le_zero.mp h1)
    subst hs
    cases f2 <;> rfl
  | succ n ih =>
    intro f2 s h1 h2
    cases s with
    | nil => cases f2 <;> rfl
    | cons c cs =>
      cases f2 with
      | zero => simp at h2
      | succ m =>
        have hcs1 : cs.length ≤ n := by simp at h1; omega
        have hcs2 : cs.length ≤ m := by simp at h2; omega
        simp only [findClickableNodesA]
        by_cases hp : nodeLit.isPrefixOf (c :: cs) = true
        · cases ht : takeUpTo '>' (cs.drop 4) with
          | none => simp [hp, ht, ih m cs hcs1 hcs2]
          | some p =>
            obtain ⟨body, rest⟩ := p
            have hr : rest.length ≤ n ∧ rest.length ≤ m := by
              have hl := takeUpTo_length ht
              rw [List.length_drop] at hl
              omega
            by_cases hcl : containsSub clickLit body = true
            · simp only [hp, ht, hcl, if_true]
              rw [ih m rest hr.1 hr.2]
            · simp [hp, ht, hcl, ih m cs hcs1 hcs2]
        · simp only [Bool.not_eq_true] at hp
          simp [hp, ih m cs hcs1 hcs2]

lemma findClickableNodesA_skip :
    ∀ f (u rest : List Char), u.length + 1 + rest.length ≤ f → '>' ∉ u →
      containsSub clickLit u = false →
      findClickableNodesA f (u ++ '>' :: rest) = findClickableNodesA f rest := by
  intro f
  induction f with
  | zero => intro u rest h _ _; exact absurd h (by omega)
  | succ g ih =>
    intro u rest hlen hgt hcl
    cases u with
    | nil =>
      show findClickableNodesA (g + 1) ('>' :: rest) = findClickableNodesA (g + 1) rest
      have hp : nodeLit.isPrefixOf ('>' :: rest) = false := nodeLit_not_isPrefixOf (by decide)
      simp only [findClickableNodesA, hp, Bool.false_eq_true, if_false]
      exact findClickableNodesA_fuel_inv g (g + 1) rest (by simp at hlen; omega)
        (by simp at hlen; omega)
    | cons a u' =>
      have hgt' : '>' ∉ u' := fun h => hgt (List.mem_cons_of_mem _ h)
      have hcl' : containsSub clickLit u' = false := containsSub_tail hcl
      have hlen' : u'.length + 1 + rest.length ≤ g := by simp at hlen; omega
      have hrg : rest.length ≤ g := by omega
      rw [List.cons_append]
      by_cases hp : nodeLit.isPrefixOf (a :: (u' ++ '>' :: rest)) = true
      · obtain ⟨ha, cs4, hcs4⟩ := nodeLit_prefix_decomp hp
        rcases u' with _ | ⟨x1, _ | ⟨x2, _ | ⟨x3, _ | ⟨x4, u''⟩⟩⟩⟩
        · rw [List.nil_append] at hcs4
          injection hcs4 with h1 _
          exact absurd h1 (by decide)
        · rw [List.cons_append, List.nil_append] at hcs4
          injection hcs4 with _ h2
          injection h2 with h3 _
          exact absurd h3 (by decide)
        · simp only [List.cons_append, List.nil_append] at hcs4
          injection hcs4 with _ h2
          injection h2 with _ h3
          injection h3 with h4 _
          exact absurd h4 (by decide)
        · simp only [List.cons_append, List.nil_append] at hcs4
          injection hcs4 with _ h2
          injection h2 with _ h3
          injection h3 with _ h4
          injection h4 with h5 _
          exact absurd h5 (by decide)
        · simp only [List.cons_append] at hcs4
          injection hcs4 with e1 h2
          injection h2 with e2 h3
          injection h3 with e3 h4
          injection h4 with e4 h5
          subst e1; subst e2; subst e3; subst e4
          have hgt'' : '>' ∉ u'' := by
            intro h
            exact hgt' (by
              simp only [List.mem_cons]
              exact Or.inr (Or.inr (Or.inr (Or.inr h))))
          have hclu : containsSub clickLit u'' = false :=
            containsSub_tail (containsSub_tail (containsSub_tail
              (containsSub_tail (containsSub_tail hcl))))
          have hdrop : (('n' :: 'o' :: 'd' :: 'e' :: u'') ++ '>' :: rest).drop 4 =
              u'' ++ '>' :: rest := rfl
          simp only [findClickableNodesA, hp, if_true]
          rw [show (('n' :: 'o' :: 'd' :: 'e' :: u'' : List Char) ++ '>' :: rest).drop 4 =
            u'' ++ '>' :: rest from rfl]
          rw [takeUpTo_of_append hgt'' rest]
          simp only [hclu, Bool.false_eq_true, if_false]
          rw [ih ('n' :: 'o' :: 'd' :: 'e' :: u'') rest (by simp at hlen ⊢; omega)
            hgt' hcl']
          exact findClickableNodesA_fuel_inv g (g + 1) rest hrg (by omega)
      · simp only [Bool.not_eq_true] at hp
        simp only [findClickableNodesA, hp, Bool.false_eq_true, if_false]
        rw [ih u' rest hlen' hgt' hcl']
        exact findClickableNodesA_fuel_inv g (g + 1) rest hrg (by omega)

lemma clickable_filter_aux :
    ∀ f (s : List Char), s.length ≤ f →
      findClickableNodesA f s =
        (findNodesA f s).filter (fun n => containsSub clickLit n) := by
  intro f
  induction f with
  | zero =>
    intro s h
    have hs : s = [] := List.eq_nil_of_length_eq_zero (Nat.le_zero.mp h)
    subst hs
    rfl
  | succ g ih =>
    intro s hlen
    cases s with
    | nil => rfl
    | cons c cs =>
      have hcs : cs.length ≤ g := by simp at hlen; omega
      by_cases hp : nodeLit.isPrefixOf (c :: cs) = true
      · obtain ⟨hc, cs4, hcs4⟩ := nodeLit_prefix_decomp hp
        cases ht : takeUpTo '>' (cs.drop 4) with
        | none =>
          simp only [findClickableNodesA, findNodesA, hp, ht, if_true]
          exact ih cs hcs
        | some p =>
          obtain ⟨body, rest⟩ := p
          obtain ⟨hdec, hgtb⟩ := takeUpTo_eq_some ht
          have hrest : rest.length ≤ g := by
            have hl := takeUpTo_length ht
            rw [List.length_drop] at hl
            omega
          have hstraddle := containsSub_click_whole_node body
          by_cases hcl : containsSub clickLit body = true
          · simp only [findClickableNodesA, findNodesA, hp, ht, hcl, if_true,
              List.filter_cons, hstraddle]
            rw [ih rest hrest]
          · simp only [Bool.not_eq_true] at hcl
            have hcseq : cs = ('n' :: 'o' :: 'd' :: 'e' :: body) ++ '>' :: rest := by
              rw [hcs4]
              have : cs4 = body ++ '>' :: rest := by
                have hd : cs.drop 4 = cs4 := by rw [hcs4]; rfl
                rw [← hd, hdec]
              rw [this]
              rfl
            have hgtu : '>' ∉ ('n' :: 'o' :: 'd' :: 'e' :: body) := by
              intro hm
              simp only [List.mem_cons] at hm
              rcases hm with h | h | h | h | h
              · exact absurd h (by decide)
              · exact absurd h (by decide)
              · exact absurd h (by decide)
              · exact absurd h (by decide)
              · exact hgtb h
            have hclu : containsSub clickLit ('n' :: 'o' :: 'd' :: 'e' :: body) = false := by
              rw [containsSub_click_node_body]
              exact hcl
            have hlenu : ('n' :: 'o' :: 'd' :: 'e' :: body).length + 1 + rest.length ≤ g := by
              have : cs.length = 4 + body.length + 1 + rest.length := by
                rw [hcseq]; simp; omega
              simp
              omega
            calc findClickableNodesA (g + 1) (c :: cs)
                = findClickableNodesA g cs := by
                  simp only [findClickableNodesA, hp, ht, hcl, Bool.false_eq_true,
                    if_false, if_true]
              _ = findClickableNodesA g rest := by
                  rw [hcseq]
                  exact findClickableNodesA_skip g _ rest hlenu hgtu hclu
              _ = (findNodesA g rest).filter (fun n => containsSub clickLit n) :=
                  ih rest hrest
              _ = (findNodesA (g + 1) (c :: cs)).filter (fun n => containsSub clickLit n) := by
                  simp only [findNodesA, hp, ht, if_true, List.filter_cons, hstraddle, hcl,
                    Bool.false_eq_true, if_false]
      · simp only [Bool.not_eq_true] at hp
        simp only [findClickableNodesA, findNodesA, hp, Bool.false_eq_true, if_false]
        exact ih cs hcs

lemma clickable_nodes_eq_filter (s : List Char) :
    findClickableNodes s = (findNodes s).filter (fun n => containsSub clickLit n) :=
  clickable_filter_aux s.length s (le_refl _)

/-- C1 counterexample: the node
`<node clickable="false" long-clickable="true" bounds="[0,0][2,2]">` has
clickable attribute value exactly `"false"`, yet `get_clickable_elements`
returns a record for it — the pattern only requires the substring
`clickable="true"` somewhere in the node, here supplied by
`long-clickable="true"`. -/
theorem clickable_attr_false_node_returned :
    extractAttr clickableKey cNodeC = some ("false".toList) ∧
      (get_clickable_elements cNodeC).length = 1 := by
  decide

/-- C1 amended: `get_clickable_elements` returns, in document order, one
record per scanned node token containing the literal substring
`clickable="true"` anywhere before its closing `>` (not per node whose
clickable attribute value is `"true"`), omitting records with no extracted
field; on the specification's two-node dump it returns exactly one record
(node A) with `center=(200,225)` and `size=(200,50)`. -/
theorem clickable_elements_characterization :
    (∀ xml, get_clickable_elements xml =
        (((findNodes xml).filter (fun n => containsSub clickLit n)).filterMap fun n =>
          if elemNonempty (mkCElem n) then some (mkCElem n) else none)) ∧
      get_clickable_elements dumpAB = [recA] := by
  refine ⟨fun xml => ?_, by decide⟩
  show (findClickableNodes xml).filterMap _ = _
  rw [clickable_nodes_eq_filter]
